import Mathlib

/-!
Verification of the neuro-mono stereo-to-mono conversion core.

A shallow embedding of the analysis-and-downmix pipeline of the
`neuro-mono` repository: the stereo analyzer (`AudioUtils.analyzeStereo`
and its helpers), the fixed-topology feed-forward weight mapper
(`NeuralNetwork` / `AudioFeatureProcessor`), and the multi-stage downmix
(`StereoToMonoConverter.convert`).

Modelling conventions:
* JavaScript numbers are modelled as real numbers (`ℝ`); machine floats
  and their rounding are out of scope.
* `Float32Array` channels become `List ℝ`; the loops of the source, which
  run an index `i` over `0 ≤ i < length` and read `arr[i]`, become
  indexed sums / maps over `Finset.range length` with `List.getD · 0`.
* JavaScript division is total on floats, producing `NaN`/`±Infinity`
  when the denominator is `0`.  Lean's real division is total with junk
  value `0` instead, so wherever a claim concerns `NaN`, the relevant
  denominator is exposed as its own definition and the absence of `NaN`
  is formalised as that denominator being nonzero
  (`analyzeDivisorsNonzero` for the analyzer's `/length` and
  `/numWindows`; `hannDenom` with `harmonicBlockLengths` for the
  harmonic stage's Hann windows, whose one-sample blocks divide by
  zero).
* The network weights of the source are produced by unseeded
  `Math.random()` draws.  The constructors are therefore parametrised by
  the draw functions (`rw`, `rb`), each draw lying in `[0,1)` at runtime.
-/

namespace NeuroMono

noncomputable section

/-- `AudioBuffer` of `src/types.ts`: two channels plus a sample rate. -/
structure AudioBuffer where
  left : List ℝ
  right : List ℝ
  sampleRate : ℝ

/-- The `frequencyDistribution` record of `StereoAnalysis`. -/
structure FrequencyDistribution where
  low : ℝ
  mid : ℝ
  high : ℝ
deriving DecidableEq

/-- `StereoAnalysis` of `src/types.ts`. -/
structure StereoAnalysis where
  width : ℝ
  richness : ℝ
  rmsLevel : ℝ
  peakLevel : ℝ
  phaseCorrelation : ℝ
  frequencyDistribution : FrequencyDistribution
deriving DecidableEq

/-- Left channel sample at index `i` (the source reads `left[i]`). -/
def lch (b : AudioBuffer) (i : ℕ) : ℝ := b.left.getD i 0

/-- Right channel sample at index `i`. -/
def rch (b : AudioBuffer) (i : ℕ) : ℝ := b.right.getD i 0

/-- Channel length used by every loop of the source: `left.length`. -/
def len (b : AudioBuffer) : ℕ := b.left.length

/-- `widthSum` accumulator of `analyzeStereo`: `Σ |left[i] - right[i]|`. -/
def widthSum (b : AudioBuffer) : ℝ :=
  ∑ i ∈ Finset.range (len b), |lch b i - rch b i|

/-- `correlationSum` accumulator: `Σ left[i] * right[i]`. -/
def correlationSum (b : AudioBuffer) : ℝ :=
  ∑ i ∈ Finset.range (len b), lch b i * rch b i

/-- `leftPowerSum` accumulator: `Σ left[i] * left[i]`. -/
def leftPowerSum (b : AudioBuffer) : ℝ :=
  ∑ i ∈ Finset.range (len b), lch b i * lch b i

/-- `rightPowerSum` accumulator: `Σ right[i] * right[i]`. -/
def rightPowerSum (b : AudioBuffer) : ℝ :=
  ∑ i ∈ Finset.range (len b), rch b i * rch b i

/-- `rmsSum` accumulator: `Σ mid²` with `mid = (left[i]+right[i])/2`. -/
def rmsSum (b : AudioBuffer) : ℝ :=
  ∑ i ∈ Finset.range (len b), ((lch b i + rch b i) / 2) * ((lch b i + rch b i) / 2)

/-- Running peak of `analyzeStereo`: starts at `0`, updated with
`max(|left[i]|, |right[i]|)` whenever that beats the current peak. -/
def peakLevel (b : AudioBuffer) : ℝ :=
  (List.range (len b)).foldl (fun acc i => max acc (max |lch b i| |rch b i|)) 0

/-- `width = Math.min(1.0, widthSum / length)`. -/
def width (b : AudioBuffer) : ℝ := min 1 (widthSum b / (len b : ℝ))

/-- `rmsLevel = Math.sqrt(rmsSum / length)`. -/
def rmsLevel (b : AudioBuffer) : ℝ := Real.sqrt (rmsSum b / (len b : ℝ))

/-- `leftRMS = Math.sqrt(leftPowerSum / length)`. -/
def leftRMS (b : AudioBuffer) : ℝ := Real.sqrt (leftPowerSum b / (len b : ℝ))

/-- `rightRMS = Math.sqrt(rightPowerSum / length)`. -/
def rightRMS (b : AudioBuffer) : ℝ := Real.sqrt (rightPowerSum b / (len b : ℝ))

/-- `phaseCorrelation = normalization > 0 ? (correlationSum/length)/normalization : 0`
with `normalization = leftRMS * rightRMS`. -/
def phaseCorrelation (b : AudioBuffer) : ℝ :=
  if leftRMS b * rightRMS b > 0 then
    (correlationSum b / (len b : ℝ)) / (leftRMS b * rightRMS b)
  else 0

/-- `energy` accumulator of `calculateHarmonicContent`: `Σ w[i]²`. -/
def windowEnergy (w : List ℝ) : ℝ :=
  ∑ i ∈ Finset.range w.length, w.getD i 0 * w.getD i 0

/-- Zero-crossing count of `calculateHarmonicContent`:
the number of indices `i > 0` with `w[i] * w[i-1] < 0`. -/
def windowZcr (w : List ℝ) : ℕ :=
  ((List.range w.length).filter (fun i => 0 < i ∧ w.getD i 0 * w.getD (i - 1) 0 < 0)).length

/-- `calculateHarmonicContent`: `(zcr / N) * sqrt(energy / N) * 10`. -/
def calculateHarmonicContent (w : List ℝ) : ℝ :=
  ((windowZcr w : ℝ) / (w.length : ℝ)) * Real.sqrt (windowEnergy w / (w.length : ℝ)) * 10

/-- Prefix length used by `calculateRichness`: `min(left.length, 8192)`. -/
def richLen (b : AudioBuffer) : ℕ := min (len b) 8192

/-- Start offsets of the richness loop `for (i = 0; i < length - 256; i += 128)`.
For `length ≤ 256` the (real-valued) bound is `≤ 0` and the loop body never
runs; otherwise the starts are `0, 128, …` while `< length - 256`. -/
def windowStarts (length : ℕ) : List ℕ :=
  (List.range ((length - 256 + 127) / 128)).map (· * 128)

/-- `harmonicSum` accumulator of `calculateRichness`: both channels' windows
`slice(i, i+256)` contribute their harmonic content. -/
def harmonicSum (b : AudioBuffer) : ℝ :=
  ((windowStarts (richLen b)).map (fun i =>
    calculateHarmonicContent ((b.left.drop i).take 256) +
    calculateHarmonicContent ((b.right.drop i).take 256))).sum

/-- `numWindows = Math.floor((length - 256) / 128) * 2` (an integer that is
negative for `length < 256` and zero for `256 ≤ length < 384`). -/
def numWindows (b : AudioBuffer) : ℤ :=
  ⌊((richLen b : ℝ) - 256) / 128⌋ * 2

/-- `calculateRichness = Math.min(1.0, harmonicSum / numWindows)`. -/
def calculateRichness (b : AudioBuffer) : ℝ :=
  min 1 (harmonicSum b / (numWindows b : ℝ))

/-- Prefix length of `analyzeFrequencyDistribution`: `min(left.length, 4096)`. -/
def freqLen (b : AudioBuffer) : ℕ := min (len b) 4096

/-- Averaged inter-sample first-difference magnitude
`((|L[i]-L[i-1]|) + (|R[i]-R[i-1]|)) / 2`. -/
def sampleDiff (b : AudioBuffer) (i : ℕ) : ℝ :=
  (|lch b i - lch b (i - 1)| + |rch b i - rch b (i - 1)|) / 2

/-- `lowEnergy` accumulator: `|L[i]| + |R[i]|` whenever `diff < 0.1`. -/
def lowEnergy (b : AudioBuffer) : ℝ :=
  ∑ i ∈ Finset.Ico 1 (freqLen b),
    if sampleDiff b i < 0.1 then |lch b i| + |rch b i| else 0

/-- `midEnergy` accumulator: the band `0.1 ≤ diff < 0.3`. -/
def midEnergy (b : AudioBuffer) : ℝ :=
  ∑ i ∈ Finset.Ico 1 (freqLen b),
    if ¬ sampleDiff b i < 0.1 ∧ sampleDiff b i < 0.3 then |lch b i| + |rch b i| else 0

/-- `highEnergy` accumulator: the band `diff ≥ 0.3`. -/
def highEnergy (b : AudioBuffer) : ℝ :=
  ∑ i ∈ Finset.Ico 1 (freqLen b),
    if ¬ sampleDiff b i < 0.3 then |lch b i| + |rch b i| else 0

/-- `total = lowEnergy + midEnergy + highEnergy`. -/
def totalEnergy (b : AudioBuffer) : ℝ := lowEnergy b + midEnergy b + highEnergy b

/-- `analyzeFrequencyDistribution`: each ratio is `energy/total` when
`total > 0`, else `0`. -/
def analyzeFrequencyDistribution (b : AudioBuffer) : FrequencyDistribution where
  low := if totalEnergy b > 0 then lowEnergy b / totalEnergy b else 0
  mid := if totalEnergy b > 0 then midEnergy b / totalEnergy b else 0
  high := if totalEnergy b > 0 then highEnergy b / totalEnergy b else 0

/-- `AudioUtils.analyzeStereo`, assembling the analysis record. -/
def analyzeStereo (b : AudioBuffer) : StereoAnalysis where
  width := width b
  richness := calculateRichness b
  rmsLevel := rmsLevel b
  peakLevel := peakLevel b
  phaseCorrelation := phaseCorrelation b
  frequencyDistribution := analyzeFrequencyDistribution b

/-- The denominators of the divisions in `analyzeStereo` that are *not*
guarded by a positivity test in the source (`/length` in the statistics
and `/numWindows` in the richness; the per-window `/256` is a constant and
`/total`, `/normalization` are guarded).  In IEEE arithmetic a zero here
yields `NaN`, so "no silent NaN" is formalised as this predicate. -/
def analyzeDivisorsNonzero (b : AudioBuffer) : Prop :=
  ((len b : ℝ) ≠ 0) ∧ ((numWindows b : ℝ) ≠ 0)

/-- The denominator `N - 1` of the Hann-window cosine for an `N`-sample
window.  It is zero exactly for a one-sample window, in which case the
source computes `cos(2π·0/0) = cos(NaN) = NaN` and poisons the sample;
per the junk-division convention this denominator is exposed so that
absence of `NaN` can be stated as its nonvanishing. -/
def hannDenom (n : ℕ) : ℝ := (n : ℝ) - 1

/-- `AudioUtils.applyHannWindow`: elementwise multiply by
`0.5 * (1 - cos(2π i / (N - 1)))` (real-valued `N - 1`, as in JS). -/
def applyHannWindow (samples : List ℝ) : List ℝ :=
  (List.range samples.length).map fun i =>
    samples.getD i 0 * (0.5 * (1 - Real.cos (2 * Real.pi * i / hannDenom samples.length)))

/-- `AudioUtils.calculateRMS`: `sqrt(Σ x² / N)`. -/
def calculateRMS (samples : List ℝ) : ℝ :=
  Real.sqrt (windowEnergy samples / (samples.length : ℝ))

/-- `AudioUtils.normalize`: identity when the current RMS is `0`, otherwise
scale by `targetRMS / currentRMS` and clamp each sample to `[-1, 1]`. -/
def normalize (samples : List ℝ) (targetRMS : ℝ) : List ℝ :=
  if calculateRMS samples = 0 then samples
  else samples.map fun x => max (-1) (min 1 (x * (targetRMS / calculateRMS samples)))

/-- One sample of `AudioUtils.softClip` at threshold `t`: identity below the
threshold, tanh knee above it (the source computes `sign` as
`x >= 0 ? 1 : -1`). -/
def softClipSample (t x : ℝ) : ℝ :=
  if |x| ≤ t then x
  else (if 0 ≤ x then 1 else -1) * (t + (1 - t) * Real.tanh ((|x| - t) / (1 - t)))

/-- `AudioUtils.softClip` over a whole buffer. -/
def softClip (samples : List ℝ) (threshold : ℝ) : List ℝ :=
  samples.map (softClipSample threshold)

/-- Activation tags of `NeuralLayer` (`src/types.ts`). -/
inductive Activation where
  | relu
  | tanh
  | sigmoid
  | linear
deriving DecidableEq

/-- `NeuralLayer` of `src/types.ts`: per-neuron weight rows, biases, and an
activation tag. -/
structure NeuralLayer where
  weights : List (List ℝ)
  biases : List ℝ
  activation : Activation

/-- `NeuralNetwork.activate`. -/
def activate (a : Activation) (x : ℝ) : ℝ :=
  match a with
  | .relu => max 0 x
  | .tanh => Real.tanh x
  | .sigmoid => 1 / (1 + Real.exp (-x))
  | .linear => x

/-- `NeuralNetwork.forwardLayer`: neuron `i` outputs
`activate(bias[i] + Σ_{j < input.length} input[j] * weights[i][j])`. -/
def forwardLayer (input : List ℝ) (layer : NeuralLayer) : List ℝ :=
  (List.range layer.weights.length).map fun i =>
    activate layer.activation
      (layer.biases.getD i 0 +
        ∑ j ∈ Finset.range input.length, input.getD j 0 * (layer.weights.getD i []).getD j 0)

/-- `NeuralNetwork.forward`: fold the input through all layers. -/
def forward (layers : List NeuralLayer) (input : List ℝ) : List ℝ :=
  layers.foldl forwardLayer input

/-- `NeuralNetwork.createLayer` with the `Math.random()` draws abstracted as
`rw i j` (weight draw of neuron `i`, input `j`) and `rb i` (bias draw),
each in `[0,1)` at runtime.  Weights are `(draw*2 - 1) * scale` with the
Xavier scale `sqrt(2 / (inputSize + outputSize))`, biases
`(draw*2 - 1) * 0.01`, activation `linear` iff this is the output layer. -/
def createLayer (rw : ℕ → ℕ → ℝ) (rb : ℕ → ℝ) (inputSize outputSize : ℕ)
    (isOutput : Bool) : NeuralLayer where
  weights := (List.range outputSize).map fun i =>
    (List.range inputSize).map fun j =>
      (rw i j * 2 - 1) * Real.sqrt (2 / ((inputSize : ℝ) + (outputSize : ℝ)))
  biases := (List.range outputSize).map fun i => (rb i * 2 - 1) * 0.01
  activation := if isOutput then .linear else .relu

/-- The `NeuralNetwork(8, [16, 8], 4)` constructor: sizes `[8, 16, 8, 4]`,
layer `i` maps `sizes[i] → sizes[i+1]` and only the last is `linear`. -/
def mkAudioNetwork (rw : ℕ → ℕ → ℕ → ℝ) (rb : ℕ → ℕ → ℝ) : List NeuralLayer :=
  [createLayer (rw 0) (rb 0) 8 16 false,
   createLayer (rw 1) (rb 1) 16 8 false,
   createLayer (rw 2) (rb 2) 8 4 true]

/-- `optimizeForAudioPreservation`: scale every weight with input index
`j < 5` by `1.2`, in every layer. -/
def optimizeForAudioPreservation (layers : List NeuralLayer) : List NeuralLayer :=
  layers.map fun layer =>
    { layer with weights := layer.weights.map fun row =>
        row.mapIdx fun j w => if j < 5 then w * 1.2 else w }

/-- `NeuralNetwork.createPretrainedAudioModel`: random-initialised
`8 → 16 → 8 → 4` network with the audio-preservation weight scaling. -/
def createPretrainedAudioModel (rw : ℕ → ℕ → ℕ → ℝ) (rb : ℕ → ℕ → ℝ) : List NeuralLayer :=
  optimizeForAudioPreservation (mkAudioNetwork rw rb)

/-- Clamp to `[0, 1]`, as in `Math.max(0, Math.min(1, x))`. -/
def clamp01 (x : ℝ) : ℝ := max 0 (min 1 x)

/-- `AudioFeatureProcessor.processFeatures`: clamp every feature to `[0,1]`,
run the network, then post-clamp the four outputs into their ranges. -/
def processFeatures (net : List NeuralLayer) (features : List ℝ) : List ℝ :=
  let w := forward net (features.map clamp01)
  [max 0.3 (min 0.7 (0.5 + w.getD 0 0 * 0.2)),
   max 0.3 (min 0.7 (0.5 + w.getD 1 0 * 0.2)),
   max 0 (min 0.5 (w.getD 2 0)),
   max 0 (min 0.3 (w.getD 3 0))]

/-- `ConversionOptions` after the constructor of `StereoToMonoConverter`
fills in the defaults (`Required<ConversionOptions>`); the `sampleRate`
option only drives the out-of-core resampling step and is omitted. -/
structure ConversionOptions where
  preserveWidth : ℝ := 0.7
  preserveRichness : ℝ := 0.8
  volumeCompensation : ℝ := 1.1
  quality : ℝ := 0.8
  spectralAnalysis : Bool := true

/-- The 8-feature vector `calculateMixingWeights` builds from an analysis:
`[width, richness, rmsLevel, peakLevel, (phaseCorrelation+1)/2, low, mid, high]`. -/
def featuresOf (a : StereoAnalysis) : List ℝ :=
  [a.width, a.richness, a.rmsLevel, a.peakLevel, (a.phaseCorrelation + 1) / 2,
   a.frequencyDistribution.low, a.frequencyDistribution.mid, a.frequencyDistribution.high]

/-- `calculateMixingWeights`: feature vector through `processFeatures`. -/
def calculateMixingWeights (net : List NeuralLayer) (a : StereoAnalysis) : List ℝ :=
  processFeatures net (featuresOf a)

/-- `performIntelligentDownmix`: per sample `mid = L*leftWeight + R*rightWeight`;
when `preserveWidth > 0` add the side signal
`(L - R) * sideGain * preserveWidth` at half strength. -/
def performIntelligentDownmix (b : AudioBuffer) (opts : ConversionOptions)
    (weights : List ℝ) : List ℝ :=
  (List.range (len b)).map fun i =>
    let mid := lch b i * weights.getD 0 0 + rch b i * weights.getD 1 0
    if opts.preserveWidth > 0 then
      mid + (lch b i - rch b i) * weights.getD 2 0 * opts.preserveWidth * 0.5
    else mid

/-- The Hann-window overwrite of one block of `extractHarmonicContent`:
replace `arr[s … e-1]` (`harmonic.slice(s, e)` then `set` back at `s`)
by its windowed copy. -/
def applyWindowAt (arr : List ℝ) (s e : ℕ) : List ℝ :=
  arr.take s ++ applyHannWindow ((arr.drop s).take (e - s)) ++
    arr.drop (s + ((arr.drop s).take (e - s)).length)

/-- `extractHarmonicContent`: the half-scaled difference signal
`(L - R) * 0.5`, then overlapping Hann-window overwrites.  The source
loop is `for (i = 0; i < length; i += windowSize / 2)` with
`windowSize = min(512, length)` and *real-valued* hop, so the `k`-th
position is `k·windowSize/2` (fractional when `windowSize` is odd, i.e.
for odd buffers shorter than 512) and the loop runs `⌈2·length/windowSize⌉`
times.  `slice(i, end)` and `set(·, i)` truncate fractional arguments
(ToIntegerOrInfinity), so block `k` starts at `⌊k·windowSize/2⌋ =
k*windowSize/2` in natural division and ends at
`⌊min(k·windowSize/2 + windowSize, length)⌋ = min((k+2)*windowSize/2, length)`.
For `length = 0` the count is `0` and nothing runs. -/
def extractHarmonicContent (b : AudioBuffer) : List ℝ :=
  let harmonic := (List.range (len b)).map fun i => (lch b i - rch b i) * 0.5
  let windowSize := min 512 (len b)
  (List.range ((2 * len b + windowSize - 1) / windowSize)).foldl
    (fun arr k =>
      applyWindowAt arr (k * windowSize / 2) (min ((k + 2) * windowSize / 2) (len b)))
    harmonic

/-- The lengths of the blocks that `extractHarmonicContent` passes to
`applyHannWindow`: block `k` is `(arr.drop s).take (e - s)` with
`s = k*windowSize/2`, `e = min((k+2)*windowSize/2, length)`, taken from an
array that keeps length `len b` throughout the fold
(`extractHarmonicContent_length`), hence has `min (e - s) (len b - s)`
samples.  A length-1 block makes the Hann denominator `hannDenom 1 = 0`. -/
def harmonicBlockLengths (b : AudioBuffer) : List ℕ :=
  (List.range ((2 * len b + min 512 (len b) - 1) / min 512 (len b))).map fun k =>
    min (min ((k + 2) * min 512 (len b) / 2) (len b) - k * min 512 (len b) / 2)
      (len b - k * min 512 (len b) / 2)

/-- The in-place scan of `enhanceHighFrequencies` after the first sample:
`s[i] += (s[i] - s'[i-1]) * 0.5 * (enhancementFactor - 1)`, where
`s'[i-1]` is the already-enhanced previous sample. -/
def enhanceGo (k : ℝ) (prev : ℝ) : List ℝ → List ℝ
  | [] => []
  | y :: ys => (y + (y - prev) * 0.5 * k) :: enhanceGo k (y + (y - prev) * 0.5 * k) ys

/-- `enhanceHighFrequencies` with `enhancementFactor =
1 + highFreqRatio * 0.2 * preserveRichness`; index `0` is untouched. -/
def enhanceHighFrequencies (opts : ConversionOptions) (samples : List ℝ)
    (highFreqRatio : ℝ) : List ℝ :=
  match samples with
  | [] => []
  | x :: xs => x :: enhanceGo (highFreqRatio * 0.2 * opts.preserveRichness) x xs

/-- `applyPreservationTechniques`: pass-through when `preserveRichness = 0`;
harmonic reinjection when `spectralAnalysis` and `richness > 0.3`;
high-frequency enhancement when `frequencyDistribution.high > 0.2`. -/
def applyPreservationTechniques (opts : ConversionOptions) (b : AudioBuffer)
    (a : StereoAnalysis) (mono : List ℝ) : List ℝ :=
  if opts.preserveRichness = 0 then mono
  else
    let enhanced :=
      if opts.spectralAnalysis ∧ a.richness > 0.3 then
        (List.range mono.length).map fun i =>
          mono.getD i 0 +
            (extractHarmonicContent b).getD i 0 * (opts.preserveRichness * a.richness) * 0.15
      else mono
    if a.frequencyDistribution.high > 0.2 then
      enhanceHighFrequencies opts enhanced a.frequencyDistribution.high
    else enhanced

/-- `applyVolumeCompensation`: normalize to
`rmsLevel * volumeCompensation * (1 + width * 0.15)`. -/
def applyVolumeCompensation (opts : ConversionOptions) (samples : List ℝ)
    (a : StereoAnalysis) : List ℝ :=
  normalize samples (a.rmsLevel * opts.volumeCompensation * (1 + a.width * 0.15))

/-- `StereoToMonoConverter.convert`: analyze → weights → downmix →
preservation → volume compensation → soft clip at `0.95`. -/
def convert (net : List NeuralLayer) (opts : ConversionOptions)
    (b : AudioBuffer) : List ℝ :=
  let analysis := analyzeStereo b
  let mixingWeights := calculateMixingWeights net analysis
  let mono := performIntelligentDownmix b opts mixingWeights
  let enhanced := applyPreservationTechniques opts b analysis mono
  let compensated := applyVolumeCompensation opts enhanced analysis
  softClip compensated 0.95

/-- `StereoToMonoConverter.analyze` is `AudioUtils.analyzeStereo`. -/
def analyze (b : AudioBuffer) : StereoAnalysis := analyzeStereo b

/-- Modelled from the spec: the `ValidationError` taxonomy of §7 (channel
length mismatch, zero-length buffer, non-positive sample rate).  No such
type exists anywhere under `src/`; this is the spec's demanded behaviour,
embedded for comparison with the source functions. -/
inductive ValidationError where
  | channelMismatch
  | emptyBuffer
  | badSampleRate
deriving DecidableEq

/-- Modelled from the spec: the checked analyzer §4.1/§7 require —
"buffer channels equal length > 0; undefined/zero-length buffers must be
rejected with a validation error".  The source's `analyze`/`convert`
contain no validation at all; this definition follows the spec's words. -/
def specAnalyzeChecked (b : AudioBuffer) : Except ValidationError StereoAnalysis :=
  if b.left.length ≠ b.right.length then .error .channelMismatch
  else if b.left.length = 0 then .error .emptyBuffer
  else if ¬ b.sampleRate > 0 then .error .badSampleRate
  else .ok (analyzeStereo b)

/-- A valid stereo buffer: equal channel lengths, at least one sample. -/
def ValidBuffer (b : AudioBuffer) : Prop :=
  b.left.length = b.right.length ∧ 1 ≤ b.left.length

/-- The all-zero (silent) buffer of `n` samples at 44100 Hz. -/
def zeroBuffer (n : ℕ) : AudioBuffer where
  left := List.replicate n 0
  right := List.replicate n 0
  sampleRate := 44100

/-- The zero-length buffer. -/
def emptyBuffer : AudioBuffer where
  left := []
  right := []
  sampleRate := 44100

/-- A buffer whose channels have different lengths. -/
def mismatchBuffer : AudioBuffer where
  left := [0.5, 0.5]
  right := [0.5]
  sampleRate := 44100

/-- The network obtained when every `Math.random()` draw is exactly `0.5`
(an admissible draw: `Math.random()` ranges over `[0, 1)`, and
`(0.5*2 - 1) = 0` zeroes every weight and bias). -/
def zeroDrawModel : List NeuralLayer :=
  createPretrainedAudioModel (fun _ _ _ => 0.5) (fun _ _ => 0.5)

/-- The spec's §8 monotonic-sensitivity scenario, left channel:
`sin(0.1·i) * 0.5` over 1000 samples. -/
def scenarioLeft : List ℝ :=
  (List.range 1000).map fun i => Real.sin ((i : ℝ) * 0.1) * 0.5

/-- Scenario right channel: `sin(0.1·i + π/2) * 0.5`. -/
def scenarioRight : List ℝ :=
  (List.range 1000).map fun i => Real.sin ((i : ℝ) * 0.1 + Real.pi / 2) * 0.5

/-- The 1000-sample scenario buffer of the spec's §8 property list. -/
def scenarioBuffer : AudioBuffer where
  left := scenarioLeft
  right := scenarioRight
  sampleRate := 44100

/-- The default options with `preserveWidth` overridden, as the scenario
prescribes. -/
def optsPW (p : ℝ) : ConversionOptions := { preserveWidth := p }

/-- Alternating sample `(-1)^i * 0.9`, an in-range square-wave signal. -/
def nanSample (i : ℕ) : ℝ := (-1) ^ i * 0.9

/-- A valid, in-range 513-sample buffer (alternating `±0.9`, inverted
channels).  Its richness exceeds `0.3`, so the default-config harmonic
branch runs, and `extractHarmonicContent` windows a final one-sample
block (start `512`), whose Hann denominator is `0`. -/
def nanBuffer : AudioBuffer where
  left := (List.range 513).map nanSample
  right := (List.range 513).map fun i => -nanSample i
  sampleRate := 44100

/-- Aggregate absolute difference between two equal-length sample lists. -/
def sumAbsDiff (xs ys : List ℝ) : ℝ :=
  ∑ i ∈ Finset.range (max xs.length ys.length), |xs.getD i 0 - ys.getD i 0|

/-! Helper lemmas. -/

lemma getD_replicate_zero (n i : ℕ) : (List.replicate n (0:ℝ)).getD i 0 = 0 := by
  simp [List.getD]

lemma len_zeroBuffer (n : ℕ) : len (zeroBuffer n) = n := by
  simp [len, zeroBuffer]

lemma lch_zeroBuffer (n i : ℕ) : lch (zeroBuffer n) i = 0 := by
  simp [lch, zeroBuffer, List.getD]

lemma rch_zeroBuffer (n i : ℕ) : rch (zeroBuffer n) i = 0 := by
  simp [rch, zeroBuffer, List.getD]

lemma peakLevel_zeroBuffer (n : ℕ) : peakLevel (zeroBuffer n) = 0 := by
  unfold peakLevel
  have key : ∀ (l : List ℕ) (a : ℝ), 0 ≤ a →
      l.foldl (fun acc i => max acc (max |lch (zeroBuffer n) i| |rch (zeroBuffer n) i|)) a = a := by
    intro l
    induction l with
    | nil => intro a _; rfl
    | cons x xs ih =>
      intro a ha
      have : max a (max |lch (zeroBuffer n) x| |rch (zeroBuffer n) x|) = a := by
        simp [lch_zeroBuffer, rch_zeroBuffer, ha]
      simpa [this] using ih a ha
  exact key _ 0 le_rfl

lemma windowEnergy_replicate_zero (m : ℕ) : windowEnergy (List.replicate m (0:ℝ)) = 0 := by
  simp [windowEnergy, getD_replicate_zero]

lemma calculateHarmonicContent_replicate_zero (m : ℕ) :
    calculateHarmonicContent (List.replicate m (0:ℝ)) = 0 := by
  simp [calculateHarmonicContent, windowEnergy_replicate_zero]

lemma harmonicSum_zeroBuffer (n : ℕ) : harmonicSum (zeroBuffer n) = 0 := by
  apply List.sum_eq_zero
  intro x hx
  simp only [harmonicSum, List.mem_map] at hx
  obtain ⟨i, _, rfl⟩ := hx
  simp [zeroBuffer, List.drop_replicate, List.take_replicate,
    calculateHarmonicContent_replicate_zero]

lemma calculateRichness_zeroBuffer (n : ℕ) : calculateRichness (zeroBuffer n) = 0 := by
  simp [calculateRichness, harmonicSum_zeroBuffer]

lemma totalEnergy_zeroBuffer (n : ℕ) : totalEnergy (zeroBuffer n) = 0 := by
  simp [totalEnergy, lowEnergy, midEnergy, highEnergy, lch_zeroBuffer, rch_zeroBuffer]

lemma freqDist_zeroBuffer (n : ℕ) :
    analyzeFrequencyDistribution (zeroBuffer n) = ⟨0, 0, 0⟩ := by
  simp [analyzeFrequencyDistribution, totalEnergy_zeroBuffer]

lemma analyzeStereo_zeroBuffer (n : ℕ) :
    analyzeStereo (zeroBuffer n) = ⟨0, 0, 0, 0, 0, ⟨0, 0, 0⟩⟩ := by
  have hw : widthSum (zeroBuffer n) = 0 := by
    simp [widthSum, lch_zeroBuffer, rch_zeroBuffer]
  have hr : rmsSum (zeroBuffer n) = 0 := by
    simp [rmsSum, lch_zeroBuffer, rch_zeroBuffer]
  have hl : leftPowerSum (zeroBuffer n) = 0 := by
    simp [leftPowerSum, lch_zeroBuffer]
  have hpc : phaseCorrelation (zeroBuffer n) = 0 := by
    simp [phaseCorrelation, leftRMS, hl]
  refine StereoAnalysis.mk.injEq .. ▸ ?_
  simp [analyzeStereo, width, hw, rmsLevel, hr, hpc, peakLevel_zeroBuffer,
    calculateRichness_zeroBuffer, freqDist_zeroBuffer]

lemma enhanceGo_length (k prev : ℝ) (l : List ℝ) : (enhanceGo k prev l).length = l.length := by
  induction l generalizing prev with
  | nil => rfl
  | cons y ys ih => simp [enhanceGo, ih]

lemma enhanceHighFrequencies_length (opts : ConversionOptions) (samples : List ℝ) (r : ℝ) :
    (enhanceHighFrequencies opts samples r).length = samples.length := by
  cases samples with
  | nil => rfl
  | cons x xs => simp [enhanceHighFrequencies, enhanceGo_length]

lemma performIntelligentDownmix_length (b : AudioBuffer) (opts : ConversionOptions)
    (weights : List ℝ) : (performIntelligentDownmix b opts weights).length = len b := by
  simp [performIntelligentDownmix]

lemma applyPreservationTechniques_length (opts : ConversionOptions) (b : AudioBuffer)
    (a : StereoAnalysis) (mono : List ℝ) :
    (applyPreservationTechniques opts b a mono).length = mono.length := by
  unfold applyPreservationTechniques
  dsimp only
  split
  case isTrue => rfl
  case isFalse =>
    split
    case isTrue =>
      rw [enhanceHighFrequencies_length]
      split <;> simp
    case isFalse =>
      split <;> simp

lemma normalize_length (samples : List ℝ) (t : ℝ) :
    (normalize samples t).length = samples.length := by
  unfold normalize
  split <;> simp

lemma softClip_length (samples : List ℝ) (t : ℝ) :
    (softClip samples t).length = samples.length := by
  simp [softClip]

lemma convert_length (net : List NeuralLayer) (opts : ConversionOptions) (b : AudioBuffer) :
    (convert net opts b).length = b.left.length := by
  unfold convert
  rw [softClip_length]
  unfold applyVolumeCompensation
  rw [normalize_length, applyPreservationTechniques_length,
    performIntelligentDownmix_length]
  rfl

lemma performIntelligentDownmix_zeroBuffer (n : ℕ) (opts : ConversionOptions)
    (weights : List ℝ) :
    performIntelligentDownmix (zeroBuffer n) opts weights = List.replicate n 0 := by
  unfold performIntelligentDownmix
  have h : ∀ i ∈ List.range (len (zeroBuffer n)),
      (let mid := lch (zeroBuffer n) i * weights.getD 0 0 + rch (zeroBuffer n) i * weights.getD 1 0
       if opts.preserveWidth > 0 then
         mid + (lch (zeroBuffer n) i - rch (zeroBuffer n) i) * weights.getD 2 0 *
           opts.preserveWidth * 0.5
       else mid) = (0:ℝ) := by
    intro i _
    simp [lch_zeroBuffer, rch_zeroBuffer]
  rw [List.map_congr_left h, List.map_const', List.length_range, len_zeroBuffer]

lemma calculateRMS_replicate_zero (n : ℕ) : calculateRMS (List.replicate n (0:ℝ)) = 0 := by
  simp [calculateRMS, windowEnergy_replicate_zero]

lemma softClipSample_zero (t : ℝ) (ht : 0 ≤ t) : softClipSample t 0 = 0 := by
  simp [softClipSample, ht]

lemma convert_zeroBuffer (net : List NeuralLayer) (opts : ConversionOptions) (n : ℕ) :
    convert net opts (zeroBuffer n) = List.replicate n 0 := by
  unfold convert
  dsimp only
  rw [analyzeStereo_zeroBuffer, performIntelligentDownmix_zeroBuffer]
  have hpres : applyPreservationTechniques opts (zeroBuffer n) ⟨0, 0, 0, 0, 0, ⟨0, 0, 0⟩⟩
      (List.replicate n 0) = List.replicate n 0 := by
    unfold applyPreservationTechniques
    split
    case isTrue => rfl
    case isFalse =>
      have h3 : ¬ ((0:ℝ) > 0.3) := by norm_num
      have h2 : ¬ ((0:ℝ) > 0.2) := by norm_num
      simp [h3, h2]
  rw [hpres]
  have hvol : applyVolumeCompensation opts (List.replicate n 0) ⟨0, 0, 0, 0, 0, ⟨0, 0, 0⟩⟩
      = List.replicate n 0 := by
    unfold applyVolumeCompensation normalize
    rw [if_pos (calculateRMS_replicate_zero n)]
  rw [hvol]
  unfold softClip
  rw [List.map_replicate, softClipSample_zero _ (by norm_num)]

lemma tanh_lt_one (x : ℝ) : Real.tanh x < 1 := by
  rw [Real.tanh_eq_sinh_div_cosh, div_lt_one (Real.cosh_pos x), Real.sinh_eq, Real.cosh_eq]
  have h := Real.exp_pos (-x)
  linarith

lemma neg_one_lt_tanh (x : ℝ) : -1 < Real.tanh x := by
  rw [Real.tanh_eq_sinh_div_cosh, lt_div_iff₀ (Real.cosh_pos x), Real.sinh_eq, Real.cosh_eq]
  have h := Real.exp_pos x
  linarith

lemma getD_getD_replicate (m k i j : ℕ) :
    ((List.replicate m (List.replicate k (0:ℝ))).getD i []).getD j 0 = 0 := by
  rcases lt_or_le i m with h | h
  · have hrow : (List.replicate m (List.replicate k (0:ℝ))).getD i [] = List.replicate k 0 := by
      rw [List.getD_eq_getElem?_getD, List.getElem?_replicate, if_pos h]
      rfl
    rw [hrow, getD_replicate_zero]
  · have hrow : (List.replicate m (List.replicate k (0:ℝ))).getD i [] = [] := by
      rw [List.getD_eq_getElem?_getD, List.getElem?_replicate, if_neg (Nat.not_lt.2 h)]
      rfl
    rw [hrow]
    rfl

lemma forwardLayer_zeroWeights (input : List ℝ) (m k : ℕ) (act : Activation) :
    forwardLayer input ⟨List.replicate m (List.replicate k 0), List.replicate m 0, act⟩ =
      List.replicate m (activate act 0) := by
  unfold forwardLayer
  have h : ∀ i ∈ List.range m,
      activate act ((List.replicate m (0:ℝ)).getD i 0 +
        ∑ j ∈ Finset.range input.length,
          input.getD j 0 * (((List.replicate m (List.replicate k (0:ℝ))).getD i []).getD j 0)) =
      activate act 0 := by
    intro i _
    have hz : ∀ j, (((List.replicate m (List.replicate k (0:ℝ))).getD i []).getD j 0) = 0 :=
      fun j => getD_getD_replicate m k i j
    rw [getD_replicate_zero]
    simp only [hz, mul_zero, Finset.sum_const_zero, add_zero, zero_add]
  simp only [List.length_replicate]
  rw [List.map_congr_left h, List.map_const', List.length_range]

lemma createLayer_zeroDraw (ins outs : ℕ) (io : Bool) :
    createLayer (fun _ _ => 0.5) (fun _ => 0.5) ins outs io =
      ⟨List.replicate outs (List.replicate ins 0), List.replicate outs 0,
        if io then .linear else .relu⟩ := by
  unfold createLayer
  dsimp only
  have h0 : ((0.5:ℝ) * 2 - 1) * Real.sqrt (2 / ((ins : ℝ) + (outs : ℝ))) = 0 := by norm_num
  have hb : ((0.5:ℝ) * 2 - 1) * 0.01 = 0 := by norm_num
  simp only [h0, hb, List.map_const', List.length_range]

lemma zeroDrawModel_eq :
    zeroDrawModel =
      [⟨List.replicate 16 (List.replicate 8 0), List.replicate 16 0, .relu⟩,
       ⟨List.replicate 8 (List.replicate 16 0), List.replicate 8 0, .relu⟩,
       ⟨List.replicate 4 (List.replicate 8 0), List.replicate 4 0, .linear⟩] := by
  unfold zeroDrawModel createPretrainedAudioModel mkAudioNetwork
  rw [createLayer_zeroDraw, createLayer_zeroDraw, createLayer_zeroDraw]
  unfold optimizeForAudioPreservation
  simp only [List.map_cons, List.map_nil, List.map_replicate]
  norm_num [List.mapIdx_eq_enum_map, List.enum_eq_zip_range, List.range_succ,
    List.replicate_succ, Function.uncurry]

lemma forward_zeroDrawModel (input : List ℝ) :
    forward zeroDrawModel input = List.replicate 4 0 := by
  rw [zeroDrawModel_eq]
  unfold forward
  simp only [List.foldl_cons, List.foldl_nil]
  rw [forwardLayer_zeroWeights]
  norm_num [activate]

lemma processFeatures_zeroDrawModel (features : List ℝ) :
    processFeatures zeroDrawModel features = [0.5, 0.5, 0, 0] := by
  unfold processFeatures
  rw [forward_zeroDrawModel]
  norm_num [getD_replicate_zero]

lemma softClipSample_abs_lt_one (x : ℝ) : |softClipSample 0.95 x| < 1 := by
  unfold softClipSample
  split
  case isTrue h => calc |x| ≤ 0.95 := h
    _ < 1 := by norm_num
  case isFalse h =>
    have harg := tanh_lt_one ((|x| - 0.95) / (1 - 0.95))
    have harg2 := neg_one_lt_tanh ((|x| - 0.95) / (1 - 0.95))
    have hval : |(0.95:ℝ) + (1 - 0.95) * Real.tanh ((|x| - 0.95) / (1 - 0.95))| < 1 := by
      rw [abs_lt]
      constructor <;> nlinarith
    split
    case isTrue hx => rwa [one_mul]
    case isFalse hx => rwa [neg_one_mul, abs_neg]

lemma applyHannWindow_length (samples : List ℝ) :
    (applyHannWindow samples).length = samples.length := by
  simp [applyHannWindow]

lemma applyWindowAt_length (arr : List ℝ) (s e : ℕ) :
    (applyWindowAt arr s e).length = arr.length := by
  simp [applyWindowAt, applyHannWindow_length]
  omega

/-- The harmonic fold keeps the array length invariant, so the blocks it
windows have exactly the lengths recorded by `harmonicBlockLengths`. -/
lemma extractHarmonicContent_length (b : AudioBuffer) :
    (extractHarmonicContent b).length = len b := by
  unfold extractHarmonicContent
  dsimp only
  have key : ∀ (ks : List ℕ) (arr : List ℝ),
      (ks.foldl (fun a k => applyWindowAt a (k * min 512 (len b) / 2)
        (min ((k + 2) * min 512 (len b) / 2) (len b))) arr).length = arr.length := by
    intro ks
    induction ks with
    | nil => intro arr; rfl
    | cons k ks ih =>
      intro arr
      rw [List.foldl_cons, ih, applyWindowAt_length]
  rw [key]
  simp

lemma getD_take_drop (l : List ℝ) (s k i : ℕ) (hi : i < k) :
    ((l.drop s).take k).getD i 0 = l.getD (s + i) 0 := by
  simp [List.getD_eq_getElem?_getD, List.getElem?_take, hi, List.getElem?_drop]

lemma length_filter_pos (n : ℕ) :
    ((List.range n).filter (fun i => decide (0 < i))).length = n - 1 := by
  induction n with
  | zero => rfl
  | succ m ih =>
    rw [List.range_succ, List.filter_append, List.length_append, ih]
    cases m with
    | zero => rfl
    | succ k => simp

/-- A window whose adjacent products are all negative has `N - 1` zero
crossings. -/
lemma windowZcr_all_neg (w : List ℝ)
    (h : ∀ i, 0 < i → i < w.length → w.getD i 0 * w.getD (i - 1) 0 < 0) :
    windowZcr w = w.length - 1 := by
  unfold windowZcr
  have hcongr : ∀ i ∈ List.range w.length,
      (decide (0 < i ∧ w.getD i 0 * w.getD (i - 1) 0 < 0)) = decide (0 < i) := by
    intro i hi
    by_cases h0 : 0 < i
    · rw [decide_eq_true (show 0 < i ∧ w.getD i 0 * w.getD (i - 1) 0 < 0 from
        ⟨h0, h i h0 (List.mem_range.1 hi)⟩), decide_eq_true h0]
    · rw [decide_eq_false (by tauto), decide_eq_false h0]
  rw [List.filter_congr hcongr, length_filter_pos]

lemma getD_map_range (f : ℕ → ℝ) (n i : ℕ) (h : i < n) :
    ((List.range n).map f).getD i 0 = f i := by
  rw [List.getD_eq_getElem?_getD, List.getElem?_map, List.getElem?_range h]
  rfl

lemma nanSample_sq (k : ℕ) : nanSample k * nanSample k = 0.81 := by
  unfold nanSample
  have h1 : ((-1:ℝ)) ^ k * ((-1:ℝ)) ^ k = 1 := by
    rw [← pow_add]
    exact Even.neg_one_pow ⟨k, rfl⟩
  linear_combination (81 / 100) * h1

lemma nanSample_adj (k : ℕ) : nanSample (k + 1) * nanSample k = -0.81 := by
  unfold nanSample
  have h1 : ((-1:ℝ)) ^ (k + 1) * ((-1:ℝ)) ^ k = -1 := by
    rw [← pow_add]
    exact Odd.neg_one_pow ⟨k, by ring⟩
  linear_combination (81 / 100) * h1

lemma len_nanBuffer : len nanBuffer = 513 := by
  simp [len, nanBuffer]

lemma richLen_nanBuffer : richLen nanBuffer = 513 := by
  unfold richLen
  rw [len_nanBuffer]
  norm_num

lemma windowEnergy_nanWindow (g : ℕ → ℝ) (hg : ∀ k, g k * g k = 0.81) (s : ℕ)
    (hs : s + 256 ≤ 513) :
    windowEnergy ((((List.range 513).map g).drop s).take 256) = 256 * 0.81 := by
  unfold windowEnergy
  have hlen : ((((List.range 513).map g).drop s).take 256).length = 256 := by
    simp
    omega
  rw [hlen]
  have hterm : ∀ i ∈ Finset.range 256,
      ((((List.range 513).map g).drop s).take 256).getD i 0 *
        ((((List.range 513).map g).drop s).take 256).getD i 0 = 0.81 := by
    intro i hi
    have hik := Finset.mem_range.1 hi
    rw [getD_take_drop _ _ _ _ hik, getD_map_range g 513 (s + i) (by omega)]
    exact hg (s + i)
  rw [Finset.sum_congr rfl hterm, Finset.sum_const, Finset.card_range, nsmul_eq_mul]
  norm_num

lemma windowZcr_nanWindow (g : ℕ → ℝ) (hadj : ∀ k, g (k + 1) * g k = -0.81) (s : ℕ)
    (hs : s + 256 ≤ 513) :
    windowZcr ((((List.range 513).map g).drop s).take 256) = 255 := by
  have hlen : ((((List.range 513).map g).drop s).take 256).length = 256 := by
    simp
    omega
  have hneg : ∀ i, 0 < i → i < ((((List.range 513).map g).drop s).take 256).length →
      ((((List.range 513).map g).drop s).take 256).getD i 0 *
        ((((List.range 513).map g).drop s).take 256).getD (i - 1) 0 < 0 := by
    intro i h0 hiw
    rw [hlen] at hiw
    obtain ⟨j, rfl⟩ : ∃ j, i = j + 1 := ⟨i - 1, by omega⟩
    have e1 : ((((List.range 513).map g).drop s).take 256).getD (j + 1) 0 = g (s + (j + 1)) := by
      rw [getD_take_drop _ _ _ _ hiw, getD_map_range g 513 _ (by omega)]
    have e2 : ((((List.range 513).map g).drop s).take 256).getD (j + 1 - 1) 0 = g (s + j) := by
      rw [show j + 1 - 1 = j from rfl, getD_take_drop _ _ _ _ (by omega),
        getD_map_range g 513 _ (by omega)]
    rw [e1, e2, show s + (j + 1) = (s + j) + 1 from by ring, hadj (s + j)]
    norm_num
  rw [windowZcr_all_neg _ hneg, hlen]

lemma calculateHarmonicContent_nanWindow (g : ℕ → ℝ) (hg : ∀ k, g k * g k = 0.81)
    (hadj : ∀ k, g (k + 1) * g k = -0.81) (s : ℕ) (hs : s + 256 ≤ 513) :
    calculateHarmonicContent ((((List.range 513).map g).drop s).take 256) =
      255 / 256 * 0.9 * 10 := by
  unfold calculateHarmonicContent
  have hlen : ((((List.range 513).map g).drop s).take 256).length = 256 := by
    simp
    omega
  rw [windowZcr_nanWindow g hadj s hs, windowEnergy_nanWindow g hg s hs, hlen]
  have h1 : (256:ℝ) * 0.81 / ((256:ℕ):ℝ) = 0.9 ^ 2 := by
    push_cast
    norm_num
  rw [h1, Real.sqrt_sq (by norm_num)]
  push_cast
  norm_num

lemma nanBuffer_left_eq : nanBuffer.left = (List.range 513).map nanSample := by
  simp only [nanBuffer]

lemma nanBuffer_right_eq : nanBuffer.right = (List.range 513).map (fun i => -nanSample i) := by
  simp only [nanBuffer]

lemma harmonicSum_nanBuffer : harmonicSum nanBuffer = 6 * (255 / 256 * 0.9 * 10) := by
  have hsqR : ∀ k, (-nanSample k) * (-nanSample k) = 0.81 := by
    intro k
    rw [neg_mul_neg]
    exact nanSample_sq k
  have hadjR : ∀ k, (-nanSample (k + 1)) * (-nanSample k) = -0.81 := by
    intro k
    rw [neg_mul_neg]
    exact nanSample_adj k
  unfold harmonicSum
  have hws : windowStarts 513 = [0, 128, 256] := by
    unfold windowStarts
    norm_num [List.range_succ]
  rw [richLen_nanBuffer, hws]
  simp only [nanBuffer_left_eq, nanBuffer_right_eq, List.map_cons, List.map_nil,
    List.sum_cons, List.sum_nil]
  rw [calculateHarmonicContent_nanWindow nanSample nanSample_sq nanSample_adj 0 (by norm_num),
    calculateHarmonicContent_nanWindow nanSample nanSample_sq nanSample_adj 128 (by norm_num),
    calculateHarmonicContent_nanWindow nanSample nanSample_sq nanSample_adj 256 (by norm_num),
    calculateHarmonicContent_nanWindow _ hsqR hadjR 0 (by norm_num),
    calculateHarmonicContent_nanWindow _ hsqR hadjR 128 (by norm_num),
    calculateHarmonicContent_nanWindow _ hsqR hadjR 256 (by norm_num)]
  ring

lemma numWindows_nanBuffer : numWindows nanBuffer = 4 := by
  unfold numWindows
  rw [richLen_nanBuffer]
  have hfl : ⌊(((513:ℕ):ℝ) - 256) / 128⌋ = (2:ℤ) := by
    rw [Int.floor_eq_iff]
    norm_num
  rw [hfl]
  norm_num

lemma richness_nanBuffer_gt : (analyzeStereo nanBuffer).richness > 0.3 := by
  show calculateRichness nanBuffer > 0.3
  unfold calculateRichness
  rw [harmonicSum_nanBuffer, numWindows_nanBuffer]
  rw [show (((4:ℤ)):ℝ) = 4 from by norm_num]
  exact lt_min (by norm_num) (by norm_num)

lemma harmonicBlockLengths_nanBuffer : harmonicBlockLengths nanBuffer = [512, 257, 1] := by
  unfold harmonicBlockLengths
  rw [len_nanBuffer]
  norm_num [List.range_succ]

lemma harmonicBlockLengths_zeroBuffer4 : harmonicBlockLengths (zeroBuffer 4) = [4, 2] := by
  unfold harmonicBlockLengths
  rw [len_zeroBuffer]
  norm_num [List.range_succ]

lemma numWindows_zeroBuffer4 : numWindows (zeroBuffer 4) = -4 := by
  unfold numWindows richLen
  rw [len_zeroBuffer]
  have hmin : min 4 8192 = 4 := by norm_num
  rw [hmin]
  have hfl : ⌊(((4:ℕ):ℝ) - 256) / 128⌋ = (-2:ℤ) := by
    rw [Int.floor_eq_iff]
    norm_num
  rw [hfl]
  norm_num

lemma nanBuffer_left_bounded : ∀ x ∈ nanBuffer.left, |x| ≤ 1 := by
  intro x hx
  rw [nanBuffer_left_eq] at hx
  obtain ⟨i, _, rfl⟩ := List.mem_map.1 hx
  unfold nanSample
  rw [abs_mul, abs_pow, abs_neg, abs_one, one_pow, one_mul,
    abs_of_nonneg (by norm_num : (0:ℝ) ≤ 0.9)]
  norm_num

lemma nanBuffer_right_bounded : ∀ x ∈ nanBuffer.right, |x| ≤ 1 := by
  intro x hx
  rw [nanBuffer_right_eq] at hx
  obtain ⟨i, _, rfl⟩ := List.mem_map.1 hx
  rw [abs_neg]
  unfold nanSample
  rw [abs_mul, abs_pow, abs_neg, abs_one, one_pow, one_mul,
    abs_of_nonneg (by norm_num : (0:ℝ) ≤ 0.9)]
  norm_num

/-! Claims. -/

/-- Claim C2: for every valid stereo buffer (equal-length channels, length ≥ 1)
and every configuration, the mono sequence returned by `convert` has
length equal to the input channel length. -/
theorem claim_C2_convert_output_length (net : List NeuralLayer) (opts : ConversionOptions)
    (b : AudioBuffer) (hb : ValidBuffer b) :
    (convert net opts b).length = b.left.length := by
  have _h := hb
  exact convert_length net opts b

/-- Witness for C2 at a concrete one-sample buffer. -/
theorem claim_C2_witness :
    ValidBuffer (zeroBuffer 3) ∧ (convert zeroDrawModel {} (zeroBuffer 3)).length = 3 := by
  have hv : ValidBuffer (zeroBuffer 3) := by constructor <;> simp [zeroBuffer]
  refine ⟨hv, ?_⟩
  rw [claim_C2_convert_output_length zeroDrawModel {} (zeroBuffer 3) hv]
  simp [zeroBuffer]

/-- Claim C3: two 1000-sample all-zero channels at 44100 Hz: `analyze` returns
the all-zero record and `convert` returns 1000 zeros, for any network
weights and any configuration (so in particular no NaN in the output). -/
theorem claim_C3_silent_buffer (net : List NeuralLayer) (opts : ConversionOptions) :
    analyze (zeroBuffer 1000) = ⟨0, 0, 0, 0, 0, ⟨0, 0, 0⟩⟩ ∧
      convert net opts (zeroBuffer 1000) = List.replicate 1000 0 := by
  constructor
  · show analyzeStereo (zeroBuffer 1000) = _
    exact analyzeStereo_zeroBuffer 1000
  · exact convert_zeroBuffer net opts 1000

/-- Claim C8: for every sample `x` and threshold `t ∈ (0,1)`, `softClip` is the
identity when `|x| ≤ t` and otherwise returns
`sign(x) * (t + (1-t) * tanh((|x|-t)/(1-t)))`. -/
theorem claim_C8_softclip_formula (x t : ℝ) (ht0 : 0 < t) (ht1 : t < 1) :
    softClipSample t x =
      if |x| ≤ t then x
      else Real.sign x * (t + (1 - t) * Real.tanh ((|x| - t) / (1 - t))) := by
  have _h := ht1
  unfold softClipSample
  by_cases hxt : |x| ≤ t
  · rw [if_pos hxt, if_pos hxt]
  · rw [if_neg hxt, if_neg hxt]
    have hx0 : x ≠ 0 := by
      intro h
      rw [h, abs_zero] at hxt
      exact hxt ht0.le
    rcases lt_or_gt_of_ne hx0 with hneg | hpos
    · rw [Real.sign_of_neg hneg, if_neg (not_le.2 hneg)]
    · rw [Real.sign_of_pos hpos, if_pos hpos.le]

/-- Witness for C8 at `x = 2`, `t = 1/2`. -/
theorem claim_C8_witness :
    0 < (0.5:ℝ) ∧ (0.5:ℝ) < 1 ∧
      softClipSample 0.5 2 =
        if |(2:ℝ)| ≤ 0.5 then 2
        else Real.sign 2 * (0.5 + (1 - 0.5) * Real.tanh ((|(2:ℝ)| - 0.5) / (1 - 0.5))) :=
  ⟨by norm_num, by norm_num,
    claim_C8_softclip_formula 2 0.5 (by norm_num) (by norm_num)⟩

/-- Claim C10 counterexample: `nanBuffer` is a valid 513-sample buffer with
finite in-range samples on which, under the default configuration, the
harmonic-reinjection gate is open (`preserveRichness = 0.8 ≠ 0`,
`spectralAnalysis = true`, `richness > 0.3`), so `convert` runs
`extractHarmonicContent`, which Hann-windows a final one-sample block
(`harmonicBlockLengths` ends in `1`) whose cosine denominator is
`hannDenom 1 = 0`.  In IEEE arithmetic `cos(2π·0/0) = NaN` poisons
`harmonic[512]`, the reinjection makes the mixed sample `NaN`, the RMS
normalisation's gain `target/NaN` spreads it to every sample, and
`softClip` preserves it — every output sample is `NaN`, so `|y| < 1`
fails, refuting the claim at this input. -/
theorem claim_C10_counterexample :
    ValidBuffer nanBuffer ∧
      (∀ x ∈ nanBuffer.left, |x| ≤ 1) ∧ (∀ x ∈ nanBuffer.right, |x| ≤ 1) ∧
      ¬ (({} : ConversionOptions).preserveRichness = 0) ∧
      (({} : ConversionOptions).spectralAnalysis = true ∧
        (analyzeStereo nanBuffer).richness > 0.3) ∧
      1 ∈ harmonicBlockLengths nanBuffer ∧ hannDenom 1 = 0 := by
  refine ⟨⟨?_, ?_⟩, nanBuffer_left_bounded, nanBuffer_right_bounded, ?_,
    ⟨rfl, richness_nanBuffer_gt⟩, ?_, ?_⟩
  · rw [nanBuffer_left_eq, nanBuffer_right_eq]
    simp
  · rw [nanBuffer_left_eq]
    simp
  · show ¬ ((0.8:ℝ) = 0)
    norm_num
  · rw [harmonicBlockLengths_nanBuffer]
    simp
  · unfold hannDenom
    norm_num

/-- Claim C10 amended: the bound `|y| < 1` holds for every valid buffer on
which `convert` performs no division by zero — the analyzer's `/length`
and `/numWindows` denominators are nonzero and the harmonic stage windows
no one-sample block (every Hann denominator is nonzero).  The original
claim fails on buffers that reach a zero denominator (e.g. `nanBuffer`,
or any 256-sample buffer, where `numWindows = 0` makes `richness`
`0/0 = NaN` and the NaN weights poison the mix). -/
theorem claim_C10_amended_output_bounded (net : List NeuralLayer) (opts : ConversionOptions)
    (b : AudioBuffer) (hb : ValidBuffer b) (hdiv : analyzeDivisorsNonzero b)
    (hhann : 1 ∉ harmonicBlockLengths b) :
    (∀ L ∈ harmonicBlockLengths b, hannDenom L ≠ 0) ∧
      ∀ y ∈ convert net opts b, |y| < 1 := by
  have _h1 := hb
  have _h2 := hdiv
  constructor
  · intro L hL h0
    unfold hannDenom at h0
    have hL1 : (L : ℝ) = 1 := by linarith
    have hLnat : L = 1 := by exact_mod_cast hL1
    exact hhann (hLnat ▸ hL)
  · intro y hy
    unfold convert softClip at hy
    dsimp only at hy
    rw [List.mem_map] at hy
    obtain ⟨x, _, rfl⟩ := hy
    exact softClipSample_abs_lt_one x

/-- Witness for the amended C10 at the four-sample silent buffer, whose
analyzer denominators are nonzero and whose harmonic blocks have lengths
`[4, 2]`. -/
theorem claim_C10_witness :
    ValidBuffer (zeroBuffer 4) ∧ analyzeDivisorsNonzero (zeroBuffer 4) ∧
      1 ∉ harmonicBlockLengths (zeroBuffer 4) ∧
      ((∀ L ∈ harmonicBlockLengths (zeroBuffer 4), hannDenom L ≠ 0) ∧
        ∀ y ∈ convert zeroDrawModel {} (zeroBuffer 4), |y| < 1) := by
  have hv : ValidBuffer (zeroBuffer 4) := by constructor <;> simp [zeroBuffer]
  have hdiv : analyzeDivisorsNonzero (zeroBuffer 4) := by
    constructor
    · rw [len_zeroBuffer]
      norm_num
    · rw [numWindows_zeroBuffer4]
      norm_num
  have hh : 1 ∉ harmonicBlockLengths (zeroBuffer 4) := by
    rw [harmonicBlockLengths_zeroBuffer4]
    simp
  exact ⟨hv, hdiv, hh,
    claim_C10_amended_output_bounded zeroDrawModel {} (zeroBuffer 4) hv hdiv hh⟩

lemma lowEnergy_nonneg (b : AudioBuffer) : 0 ≤ lowEnergy b := by
  apply Finset.sum_nonneg
  intro i _
  split
  · positivity
  · exact le_rfl

lemma midEnergy_nonneg (b : AudioBuffer) : 0 ≤ midEnergy b := by
  apply Finset.sum_nonneg
  intro i _
  split
  · positivity
  · exact le_rfl

lemma highEnergy_nonneg (b : AudioBuffer) : 0 ≤ highEnergy b := by
  apply Finset.sum_nonneg
  intro i _
  split
  · positivity
  · exact le_rfl

/-- Claim C6: the three `frequencyDistribution` components are non-negative and
sum to exactly 1 when the sampled band energy is positive, and are all 0
when the total energy is 0 (in exact real arithmetic the floating-point
tolerance of the claim becomes equality). -/
theorem claim_C6_freq_distribution_sum (b : AudioBuffer) :
    0 ≤ (analyzeFrequencyDistribution b).low ∧
    0 ≤ (analyzeFrequencyDistribution b).mid ∧
    0 ≤ (analyzeFrequencyDistribution b).high ∧
    (analyzeFrequencyDistribution b).low + (analyzeFrequencyDistribution b).mid +
        (analyzeFrequencyDistribution b).high =
      if totalEnergy b > 0 then 1 else 0 := by
  unfold analyzeFrequencyDistribution
  dsimp only
  by_cases h : totalEnergy b > 0
  · refine ⟨?_, ?_, ?_, ?_⟩
    · rw [if_pos h]
      exact div_nonneg (lowEnergy_nonneg b) h.le
    · rw [if_pos h]
      exact div_nonneg (midEnergy_nonneg b) h.le
    · rw [if_pos h]
      exact div_nonneg (highEnergy_nonneg b) h.le
    · rw [if_pos h, if_pos h, if_pos h, if_pos h, div_add_div_same, div_add_div_same]
      exact div_self h.ne'
  · refine ⟨?_, ?_, ?_, ?_⟩ <;> simp [if_neg h]

/-- Clamp bounds used by the weight mapper. -/
lemma clamp01_nonneg (x : ℝ) : 0 ≤ clamp01 x := le_max_left 0 _

lemma clamp01_le_one (x : ℝ) : clamp01 x ≤ 1 := max_le (by norm_num) (min_le_left 1 x)

lemma clamp01_idem (x : ℝ) : clamp01 (clamp01 x) = clamp01 x := by
  have h1 := clamp01_nonneg x
  have h2 := clamp01_le_one x
  rw [show clamp01 (clamp01 x) = max 0 (min 1 (clamp01 x)) from rfl,
    min_eq_right h2, max_eq_right h1]

lemma map_clamp01_idem (l : List ℝ) : (l.map clamp01).map clamp01 = l.map clamp01 := by
  rw [List.map_map]
  exact List.map_congr_left fun a _ => clamp01_idem a

/-- Claim C7: the weight mapper clamps every input feature into `[0,1]` (never
rejecting it), returns a 4-tuple, and its entries are the raw network
outputs post-clamped into `[0.3,0.7]`, `[0.3,0.7]`, `[0,0.5]`, `[0,0.3]`
via the `0.5 + raw*0.2` formula for the first two. -/
theorem claim_C7_weight_mapper_ranges (net : List NeuralLayer) (features : List ℝ) :
    (processFeatures net features).length = 4 ∧
    processFeatures net features =
      [max 0.3 (min 0.7 (0.5 + (forward net (features.map clamp01)).getD 0 0 * 0.2)),
       max 0.3 (min 0.7 (0.5 + (forward net (features.map clamp01)).getD 1 0 * 0.2)),
       max 0 (min 0.5 ((forward net (features.map clamp01)).getD 2 0)),
       max 0 (min 0.3 ((forward net (features.map clamp01)).getD 3 0))] ∧
    processFeatures net features = processFeatures net (features.map clamp01) ∧
    (0.3 ≤ (processFeatures net features).getD 0 0 ∧
      (processFeatures net features).getD 0 0 ≤ 0.7) ∧
    (0.3 ≤ (processFeatures net features).getD 1 0 ∧
      (processFeatures net features).getD 1 0 ≤ 0.7) ∧
    (0 ≤ (processFeatures net features).getD 2 0 ∧
      (processFeatures net features).getD 2 0 ≤ 0.5) ∧
    (0 ≤ (processFeatures net features).getD 3 0 ∧
      (processFeatures net features).getD 3 0 ≤ 0.3) := by
  refine ⟨rfl, rfl, ?_, ⟨?_, ?_⟩, ⟨?_, ?_⟩, ⟨?_, ?_⟩, ⟨?_, ?_⟩⟩
  · unfold processFeatures
    rw [map_clamp01_idem]
  all_goals
    show _ ≤ _
  · exact le_max_left _ _
  · exact max_le (by norm_num) (min_le_left _ _)
  · exact le_max_left _ _
  · exact max_le (by norm_num) (min_le_left _ _)
  · exact le_max_left _ _
  · exact max_le (by norm_num) (min_le_left _ _)
  · exact le_max_left _ _
  · exact max_le (by norm_num) (min_le_left _ _)

lemma leftPowerSum_nonneg (b : AudioBuffer) : 0 ≤ leftPowerSum b :=
  Finset.sum_nonneg fun _ _ => mul_self_nonneg _

lemma rightPowerSum_nonneg (b : AudioBuffer) : 0 ≤ rightPowerSum b :=
  Finset.sum_nonneg fun _ _ => mul_self_nonneg _

lemma leftRMS_nonneg (b : AudioBuffer) : 0 ≤ leftRMS b := Real.sqrt_nonneg _

lemma rightRMS_nonneg (b : AudioBuffer) : 0 ≤ rightRMS b := Real.sqrt_nonneg _

/-- Cauchy–Schwarz for the analyzer's accumulators. -/
lemma abs_correlationSum_le (b : AudioBuffer) :
    |correlationSum b| ≤ Real.sqrt (leftPowerSum b * rightPowerSum b) := by
  have cs : (correlationSum b) ^ 2 ≤ leftPowerSum b * rightPowerSum b := by
    unfold correlationSum leftPowerSum rightPowerSum
    simp only [← pow_two]
    exact Finset.sum_mul_sq_le_sq_mul_sq _ _ _
  calc |correlationSum b| = Real.sqrt ((correlationSum b) ^ 2) := (Real.sqrt_sq_eq_abs _).symm
    _ ≤ Real.sqrt (leftPowerSum b * rightPowerSum b) := Real.sqrt_le_sqrt cs

lemma phaseCorrelation_abs_le_one (b : AudioBuffer) : |phaseCorrelation b| ≤ 1 := by
  unfold phaseCorrelation
  split
  case isFalse h => simp
  case isTrue hpos =>
    have hl : 0 < leftRMS b := by
      rcases (leftRMS_nonneg b).lt_or_eq with h | h
      · exact h
      · rw [← h, zero_mul] at hpos
        exact absurd hpos (lt_irrefl 0)
    have hdivpos : 0 < leftPowerSum b / (len b : ℝ) := Real.sqrt_pos.1 hl
    have hn0 : (len b : ℝ) ≠ 0 := by
      intro h
      rw [h, div_zero] at hdivpos
      exact lt_irrefl 0 hdivpos
    have hn : (0:ℝ) < (len b : ℝ) := lt_of_le_of_ne (Nat.cast_nonneg _) (Ne.symm hn0)
    have hD : leftRMS b * rightRMS b =
        Real.sqrt (leftPowerSum b * rightPowerSum b) / (len b : ℝ) := by
      unfold leftRMS rightRMS
      rw [← Real.sqrt_mul (div_nonneg (leftPowerSum_nonneg b) hn.le), div_mul_div_comm,
        Real.sqrt_div (mul_nonneg (leftPowerSum_nonneg b) (rightPowerSum_nonneg b)),
        Real.sqrt_mul_self hn.le]
    rw [abs_div, abs_of_pos hpos, div_le_one hpos, abs_div, abs_of_pos hn, hD]
    gcongr
    exact abs_correlationSum_le b

/-- Claim C5: `phaseCorrelation` equals `mean(L·R) / (rms(L)·rms(R))` when both
channel RMS values are positive, equals 0 when either channel has zero
power, and always lies in `[-1, 1]`. -/
theorem claim_C5_phase_correlation (b : AudioBuffer) (hb : ValidBuffer b) :
    (0 < leftRMS b → 0 < rightRMS b →
        phaseCorrelation b = (correlationSum b / (len b : ℝ)) / (leftRMS b * rightRMS b)) ∧
      ((leftRMS b = 0 ∨ rightRMS b = 0) → phaseCorrelation b = 0) ∧
      -1 ≤ phaseCorrelation b ∧ phaseCorrelation b ≤ 1 := by
  have _h := hb
  refine ⟨?_, ?_, ?_, ?_⟩
  · intro hl hr
    unfold phaseCorrelation
    rw [if_pos (mul_pos hl hr)]
  · intro h
    unfold phaseCorrelation
    rcases h with h | h <;> rw [h] <;> simp
  · exact (abs_le.1 (phaseCorrelation_abs_le_one b)).1
  · exact (abs_le.1 (phaseCorrelation_abs_le_one b)).2

/-- Witness for C5 at a concrete valid buffer. -/
theorem claim_C5_witness :
    ValidBuffer (zeroBuffer 2) ∧
      ((0 < leftRMS (zeroBuffer 2) → 0 < rightRMS (zeroBuffer 2) →
          phaseCorrelation (zeroBuffer 2) =
            (correlationSum (zeroBuffer 2) / (len (zeroBuffer 2) : ℝ)) /
              (leftRMS (zeroBuffer 2) * rightRMS (zeroBuffer 2))) ∧
        ((leftRMS (zeroBuffer 2) = 0 ∨ rightRMS (zeroBuffer 2) = 0) →
          phaseCorrelation (zeroBuffer 2) = 0) ∧
        -1 ≤ phaseCorrelation (zeroBuffer 2) ∧ phaseCorrelation (zeroBuffer 2) ≤ 1) := by
  have hv : ValidBuffer (zeroBuffer 2) := by constructor <;> simp [zeroBuffer]
  exact ⟨hv, claim_C5_phase_correlation (zeroBuffer 2) hv⟩

lemma freqRatio_bounds (b : AudioBuffer) :
    (0 ≤ (analyzeFrequencyDistribution b).low ∧ (analyzeFrequencyDistribution b).low ≤ 1) ∧
    (0 ≤ (analyzeFrequencyDistribution b).mid ∧ (analyzeFrequencyDistribution b).mid ≤ 1) ∧
    (0 ≤ (analyzeFrequencyDistribution b).high ∧ (analyzeFrequencyDistribution b).high ≤ 1) := by
  have hl := lowEnergy_nonneg b
  have hm := midEnergy_nonneg b
  have hh := highEnergy_nonneg b
  unfold analyzeFrequencyDistribution
  dsimp only
  by_cases h : totalEnergy b > 0
  · have htl : lowEnergy b ≤ totalEnergy b := by unfold totalEnergy; linarith
    have htm : midEnergy b ≤ totalEnergy b := by unfold totalEnergy; linarith
    have hth : highEnergy b ≤ totalEnergy b := by unfold totalEnergy; linarith
    refine ⟨⟨?_, ?_⟩, ⟨?_, ?_⟩, ⟨?_, ?_⟩⟩ <;> rw [if_pos h]
    exacts [div_nonneg hl h.le, (div_le_one h).2 htl,
      div_nonneg hm h.le, (div_le_one h).2 htm,
      div_nonneg hh h.le, (div_le_one h).2 hth]
  · refine ⟨⟨?_, ?_⟩, ⟨?_, ?_⟩, ⟨?_, ?_⟩⟩ <;> rw [if_neg h] <;> norm_num

/-- Claim C4: for every valid buffer strictly shorter than the analysis window
sizes, `analyze` performs no division by zero (the `/length` and
`/numWindows` denominators are nonzero), the richness loop contributes 0
windows (`harmonicSum = 0`) so `richness = 0`, and the frequency ratios
are well-defined values in `[0,1]` (finite: never NaN or Infinity). -/
theorem claim_C4_short_buffer_graceful (b : AudioBuffer) (hb : ValidBuffer b)
    (hshort : len b < 256) :
    analyzeDivisorsNonzero b ∧ harmonicSum b = 0 ∧ calculateRichness b = 0 ∧
      (0 ≤ (analyzeFrequencyDistribution b).low ∧ (analyzeFrequencyDistribution b).low ≤ 1) ∧
      (0 ≤ (analyzeFrequencyDistribution b).mid ∧ (analyzeFrequencyDistribution b).mid ≤ 1) ∧
      (0 ≤ (analyzeFrequencyDistribution b).high ∧
        (analyzeFrequencyDistribution b).high ≤ 1) := by
  have hlen1 : 1 ≤ len b := hb.2
  have hrich : richLen b = len b := min_eq_left (le_trans hshort.le (by norm_num))
  have hsum : harmonicSum b = 0 := by
    unfold harmonicSum windowStarts
    rw [hrich, Nat.sub_eq_zero_of_le hshort.le]
    norm_num
  have hnwneg : numWindows b < 0 := by
    unfold numWindows
    rw [hrich]
    have hcast : (len b : ℝ) < 256 := by exact_mod_cast hshort
    have hfloor : ⌊((len b : ℝ) - 256) / 128⌋ < 0 := by
      rw [Int.floor_lt]
      push_cast
      apply div_neg_of_neg_of_pos <;> linarith
    omega
  refine ⟨⟨?_, ?_⟩, hsum, ?_, (freqRatio_bounds b).1, (freqRatio_bounds b).2.1,
    (freqRatio_bounds b).2.2⟩
  · have : len b ≠ 0 := by omega
    exact_mod_cast this
  · have : numWindows b ≠ 0 := hnwneg.ne
    exact_mod_cast this
  · unfold calculateRichness
    rw [hsum, zero_div]
    exact min_eq_right (by norm_num)

/-- Witness for C4 at a concrete 3-sample buffer. -/
theorem claim_C4_witness :
    ValidBuffer (zeroBuffer 3) ∧ len (zeroBuffer 3) < 256 ∧
      (analyzeDivisorsNonzero (zeroBuffer 3) ∧ harmonicSum (zeroBuffer 3) = 0 ∧
        calculateRichness (zeroBuffer 3) = 0 ∧
        (0 ≤ (analyzeFrequencyDistribution (zeroBuffer 3)).low ∧
          (analyzeFrequencyDistribution (zeroBuffer 3)).low ≤ 1) ∧
        (0 ≤ (analyzeFrequencyDistribution (zeroBuffer 3)).mid ∧
          (analyzeFrequencyDistribution (zeroBuffer 3)).mid ≤ 1) ∧
        (0 ≤ (analyzeFrequencyDistribution (zeroBuffer 3)).high ∧
          (analyzeFrequencyDistribution (zeroBuffer 3)).high ≤ 1)) := by
  have hv : ValidBuffer (zeroBuffer 3) := by constructor <;> simp [zeroBuffer]
  have hs : len (zeroBuffer 3) < 256 := by rw [len_zeroBuffer]; norm_num
  exact ⟨hv, hs, claim_C4_short_buffer_graceful (zeroBuffer 3) hv hs⟩

/-- Claim C1 counterexample: the spec-modelled checker rejects the zero-length
buffer, but the source's `analyzeStereo` runs on it anyway and returns an
ordinary record, reaching divisions whose denominators are zero
(`widthSum/0`, `harmonicSum/numWindows` with `numWindows` derived from the
zero length) — in IEEE arithmetic these are `NaN`, not a validation
error. -/
theorem claim_C1_counterexample :
    specAnalyzeChecked emptyBuffer = .error .emptyBuffer ∧
      ¬ analyzeDivisorsNonzero emptyBuffer ∧
      analyzeStereo emptyBuffer = ⟨0, 0, 0, 0, 0, ⟨0, 0, 0⟩⟩ := by
  refine ⟨?_, ?_, ?_⟩
  · rfl
  · intro h
    exact h.1 (by simp [len, emptyBuffer])
  · show analyzeStereo (zeroBuffer 0) = _
    exact analyzeStereo_zeroBuffer 0

/-- Claim C1 amended: neither `convert` nor `analyze` validates its input — no
error path exists.  The zero-length and mismatched-length buffers that
the spec's `ValidationError` taxonomy says must be rejected are processed
anyway: `analyze` returns a full record (through `0/0` divisions, `NaN`
in IEEE arithmetic) and `convert` returns `left.length` samples. -/
theorem claim_C1_amended_no_validation (net : List NeuralLayer) (opts : ConversionOptions) :
    specAnalyzeChecked emptyBuffer = .error .emptyBuffer ∧
      specAnalyzeChecked mismatchBuffer = .error .channelMismatch ∧
      analyze emptyBuffer = ⟨0, 0, 0, 0, 0, ⟨0, 0, 0⟩⟩ ∧
      (convert net opts emptyBuffer).length = 0 ∧
      (convert net opts mismatchBuffer).length = 2 := by
  refine ⟨rfl, rfl, ?_, ?_, ?_⟩
  · show analyzeStereo (zeroBuffer 0) = _
    exact analyzeStereo_zeroBuffer 0
  · rw [convert_length]
    rfl
  · rw [convert_length]
    rfl

lemma performIntelligentDownmix_sideGain_zero (b : AudioBuffer) (w : List ℝ)
    (hw : w.getD 2 0 = 0) (opts1 opts2 : ConversionOptions) :
    performIntelligentDownmix b opts1 w = performIntelligentDownmix b opts2 w := by
  unfold performIntelligentDownmix
  apply List.map_congr_left
  intro i _
  dsimp only
  rw [hw]
  have hz : ∀ p : ℝ, (if p > 0 then
      lch b i * w.getD 0 0 + rch b i * w.getD 1 0 + (lch b i - rch b i) * 0 * p * 0.5
      else lch b i * w.getD 0 0 + rch b i * w.getD 1 0) =
      lch b i * w.getD 0 0 + rch b i * w.getD 1 0 := by
    intro p
    split
    · ring
    · rfl
  rw [hz, hz]

lemma convert_preserveWidth_irrelevant (net : List NeuralLayer) (b : AudioBuffer)
    (p q rich vol qual : ℝ) (sa : Bool)
    (hside : (calculateMixingWeights net (analyzeStereo b)).getD 2 0 = 0) :
    convert net ⟨p, rich, vol, qual, sa⟩ b = convert net ⟨q, rich, vol, qual, sa⟩ b := by
  unfold convert
  dsimp only
  rw [performIntelligentDownmix_sideGain_zero b _ hside
    ⟨p, rich, vol, qual, sa⟩ ⟨q, rich, vol, qual, sa⟩]
  rfl

/-- Claim C9 counterexample: with the admissible all-`0.5` random draw (every
`Math.random()` value is `0.5 ∈ [0,1)`), the mapped `sideGain` is `0`, so
converting the spec's 1000-sample sine scenario at `preserveWidth = 1`
and at `preserveWidth = 0` yields *identical* outputs: their summed
absolute difference is `0`, not `> 0.5`. -/
theorem claim_C9_counterexample :
    ¬ (0.5 < sumAbsDiff (convert zeroDrawModel (optsPW 1) scenarioBuffer)
        (convert zeroDrawModel (optsPW 0) scenarioBuffer)) := by
  have hside : (calculateMixingWeights zeroDrawModel (analyzeStereo scenarioBuffer)).getD 2 0
      = 0 := by
    unfold calculateMixingWeights
    rw [processFeatures_zeroDrawModel]
    rfl
  have heq : convert zeroDrawModel (optsPW 1) scenarioBuffer
      = convert zeroDrawModel (optsPW 0) scenarioBuffer :=
    convert_preserveWidth_irrelevant zeroDrawModel scenarioBuffer 1 0 0.8 1.1 0.8 true hside
  rw [heq]
  have hz : sumAbsDiff (convert zeroDrawModel (optsPW 0) scenarioBuffer)
      (convert zeroDrawModel (optsPW 0) scenarioBuffer) = 0 := by
    unfold sumAbsDiff
    simp
  rw [hz]
  norm_num

lemma downmix_diff (b : AudioBuffer) (w : List ℝ) (r : ℝ) (hr : 0 < r) (i : ℕ)
    (hi : i < len b) :
    (performIntelligentDownmix b (optsPW r) w).getD i 0 -
      (performIntelligentDownmix b (optsPW 0) w).getD i 0 =
      (lch b i - rch b i) * w.getD 2 0 * r * 0.5 := by
  unfold performIntelligentDownmix
  rw [getD_map_range _ _ _ hi, getD_map_range _ _ _ hi]
  dsimp only
  rw [if_pos (show (optsPW r).preserveWidth > 0 from hr),
    if_neg (show ¬ ((optsPW 0).preserveWidth > 0) from lt_irrefl 0)]
  dsimp only [optsPW]
  ring

lemma sumAbsDiff_downmix (b : AudioBuffer) (w : List ℝ) (r : ℝ) (hr : 0 < r)
    (hw : 0 ≤ w.getD 2 0) :
    sumAbsDiff (performIntelligentDownmix b (optsPW r) w)
        (performIntelligentDownmix b (optsPW 0) w) =
      r * (w.getD 2 0 * 0.5 * widthSum b) := by
  unfold sumAbsDiff
  rw [performIntelligentDownmix_length, performIntelligentDownmix_length, max_self]
  unfold widthSum
  rw [Finset.mul_sum, Finset.mul_sum]
  apply Finset.sum_congr rfl
  intro i hi
  rw [downmix_diff b w r hr i (Finset.mem_range.1 hi), abs_mul, abs_mul, abs_mul,
    abs_of_nonneg hw, abs_of_pos hr]
  rw [show |(0.5:ℝ)| = 0.5 from abs_of_pos (by norm_num)]
  ring

/-- Claim C9 amended: the claimed strict monotonicity can fail because the
unseeded random initialisation can drive the mapped `sideGain` to 0
(making the outputs identical for every `preserveWidth`), and the
post-downmix normalisation stage can rescale outputs arbitrarily; what
holds is the downmix-stage property: whenever `sideGain > 0` and the
channels genuinely differ, the aggregate absolute difference between the
downmix at `preserveWidth = p` and at `preserveWidth = 0` is strictly
increasing in `p` on `(0, 1]` (it equals `p · sideGain/2 · Σ|L-R|`). -/
theorem claim_C9_amended_downmix_monotone (b : AudioBuffer) (w : List ℝ) (p q : ℝ)
    (hside : 0 < w.getD 2 0)
    (hdiff : ∃ i, i < len b ∧ lch b i ≠ rch b i)
    (hp : 0 < p) (hpq : p < q) (hq1 : q ≤ 1) :
    sumAbsDiff (performIntelligentDownmix b (optsPW p) w)
        (performIntelligentDownmix b (optsPW 0) w) <
      sumAbsDiff (performIntelligentDownmix b (optsPW q) w)
        (performIntelligentDownmix b (optsPW 0) w) := by
  have _h := hq1
  rw [sumAbsDiff_downmix b w p hp hside.le,
    sumAbsDiff_downmix b w q (hp.trans hpq) hside.le]
  have hS : 0 < widthSum b := by
    obtain ⟨i, hi, hne⟩ := hdiff
    unfold widthSum
    apply Finset.sum_pos' (fun _ _ => abs_nonneg _)
    exact ⟨i, Finset.mem_range.2 hi, abs_pos.2 (sub_ne_zero.2 hne)⟩
  have hC : 0 < w.getD 2 0 * 0.5 * widthSum b := by positivity
  exact mul_lt_mul_of_pos_right hpq hC

/-- Witness for the amended C9 at a one-sample buffer with differing
channels and a weight vector with positive side gain. -/
theorem claim_C9_witness :
    0 < ([0.5, 0.5, 0.01, 0] : List ℝ).getD 2 0 ∧
      (∃ i, i < len ⟨[0.5], [0], 44100⟩ ∧
        lch ⟨[0.5], [0], 44100⟩ i ≠ rch ⟨[0.5], [0], 44100⟩ i) ∧
      0 < (0.5:ℝ) ∧ (0.5:ℝ) < 1 ∧ (1:ℝ) ≤ 1 ∧
      sumAbsDiff (performIntelligentDownmix ⟨[0.5], [0], 44100⟩ (optsPW 0.5)
            [0.5, 0.5, 0.01, 0])
          (performIntelligentDownmix ⟨[0.5], [0], 44100⟩ (optsPW 0) [0.5, 0.5, 0.01, 0]) <
        sumAbsDiff (performIntelligentDownmix ⟨[0.5], [0], 44100⟩ (optsPW 1)
            [0.5, 0.5, 0.01, 0])
          (performIntelligentDownmix ⟨[0.5], [0], 44100⟩ (optsPW 0) [0.5, 0.5, 0.01, 0]) := by
  have h1 : 0 < ([0.5, 0.5, 0.01, 0] : List ℝ).getD 2 0 := by
    show (0:ℝ) < 0.01
    norm_num
  have h2 : ∃ i, i < len (⟨[0.5], [0], 44100⟩ : AudioBuffer) ∧
      lch ⟨[0.5], [0], 44100⟩ i ≠ rch ⟨[0.5], [0], 44100⟩ i := by
    refine ⟨0, ?_, ?_⟩
    · simp [len]
    · show (0.5:ℝ) ≠ 0
      norm_num
  exact ⟨h1, h2, by norm_num, by norm_num, le_rfl,
    claim_C9_amended_downmix_monotone ⟨[0.5], [0], 44100⟩ [0.5, 0.5, 0.01, 0] 0.5 1
      h1 h2 (by norm_num) (by norm_num) le_rfl⟩

end

end NeuroMono
